import Mathlib

/-!
Shallow embedding of the WebSocketFileTransfer_StateMachine repository
(Go: `src/client/client.go` and the server file `src/unnamed/part_000`).

Bytes are modelled as `Fin 256`; a lossless stream is the list of bytes
still unread.  A single call to `bufio.Reader.Read(p)` on such a stream is
modelled by `streamRead`: it returns `min |p| available` bytes when at
least one byte is available and the `EOF` error when the stream is
exhausted (`io.EOF.Error() = "EOF"`).  Writers are modelled by the list of
bytes the writing function emits.  Machine integers (`int` in Go, 64-bit)
are modelled as `Int`, with the `int32`/`uint32` conversions written as
explicit `% 4294967296` arithmetic.
-/

abbrev Byte := Fin 256

/-- Go `error` values, observed only through `err.Error()`. -/
inductive GoError where
  | eof
  | other (msg : String)
deriving DecidableEq

def errString : GoError → String
  | .eof => "EOF"
  | .other msg => msg

/-- `bufferSize = 1024 * 1024` (1 MiB), the transfer chunk bound of both files. -/
def bufferSize : Nat := 1024 * 1024

/-- One call to `reader.Read` on a fully buffered lossless stream: with `k`
bytes requested it consumes `min k available` bytes, and it reports `EOF`
when no byte is available (and `k > 0`). -/
def streamRead (k : Nat) (s : List Byte) : Except GoError (List Byte × List Byte) :=
  if k = 0 then .ok ([], s)
  else if s.isEmpty then .error .eof
  else .ok (s.take k, s.drop k)

/-- Big-endian bytes of `v` (`v < 2^32` intended): `binary.BigEndian.PutUint32`. -/
def encodeBE4 (v : Nat) : List Byte :=
  [⟨v / 16777216 % 256, Nat.mod_lt _ (by decide)⟩,
   ⟨v / 65536 % 256, Nat.mod_lt _ (by decide)⟩,
   ⟨v / 256 % 256, Nat.mod_lt _ (by decide)⟩,
   ⟨v % 256, Nat.mod_lt _ (by decide)⟩]

/-- `binary.BigEndian.Uint32` of a 4-byte buffer, widened to Go `int`
(`int(receiveInt)` on a 64-bit platform: an unsigned widening). -/
def decodeBE4 (b : List Byte) : Int :=
  match b with
  | [b0, b1, b2, b3] =>
      (b0.val : Int) * 16777216 + (b1.val : Int) * 65536 + (b2.val : Int) * 256 + (b3.val : Int)
  | _ => 0

/-- `sendInt(writer, num)` from `client.go`: `int32(num)` is the low 32 bits of
`num` and `uint32` of that is `num mod 2^32`, written big-endian.  The value
returned is the byte sequence put on the wire. -/
def sendInt (num : Int) : List Byte :=
  encodeBE4 ((num % 4294967296).toNat)

/-- The chunking loop of `sendBytes`: `for start := 0; start < len(data);
start += bufferSize { chunk := data[start:end]; writer.Write(chunk) }` where
`end = min (start+bufferSize) (len data)`.  Output is the concatenation of the
chunks written. -/
def sendChunks (data : List Byte) (start : Nat) : List Byte :=
  if start < data.length then
    (data.drop start).take bufferSize ++ sendChunks data (start + bufferSize)
  else []
termination_by data.length - start
decreasing_by simp only [bufferSize] at *; omega

/-- `sendBytes(writer, data)` from `client.go`: first `sendInt(writer, len(data))`,
then the 1 MiB chunks of `data`. -/
def sendBytes (data : List Byte) : List Byte :=
  sendInt (data.length : Int) ++ sendChunks data 0

/-- `receiveInt(reader)` from the server file: `receivedByte := make([]byte, 4)`
(zero-filled), a single `reader.Read(receivedByte)` whose byte count is
discarded, then `binary.BigEndian.Uint32` of the whole 4-byte buffer.  A short
read leaves the trailing bytes of the buffer zero. -/
def receiveInt (s : List Byte) : Except GoError (Int × List Byte) :=
  match streamRead 4 s with
  | .error e => .error e
  | .ok (chunk, rest) =>
      .ok (decodeBE4 (chunk ++ List.replicate (4 - chunk.length) 0), rest)

/-- The accumulation loop of `receiveBytes`: `for received < size` read
`min bufferSize remaining` bytes and append.  Each iteration of the Go loop
either errors or consumes at least one byte, so `size` iterations always
suffice; the first argument counts the remaining permitted iterations and its
exhaustion branch (reachable only below that bound) reports `EOF`. -/
def recvLoop : Nat → Nat → List Byte → List Byte → Except GoError (List Byte × List Byte)
  | _, 0, acc, s => .ok (acc, s)
  | 0, _ + 1, _, _ => .error .eof
  | fuel + 1, remaining + 1, acc, s =>
      match streamRead (min bufferSize (remaining + 1)) s with
      | .error e => .error e
      | .ok (chunk, rest) => recvLoop fuel (remaining + 1 - chunk.length) (acc ++ chunk) rest

/-- `receiveBytes(reader)` from the server file: `size := receiveInt(reader)`,
`data := make([]byte, size)`, then the accumulation loop until `received = size`.
The allocation size is the Go `int` returned by `receiveInt`. -/
def receiveBytes (s : List Byte) : Except GoError (List Byte × List Byte) :=
  match receiveInt s with
  | .error e => .error e
  | .ok (size, rest) => recvLoop size.toNat size.toNat [] rest

theorem length_encodeBE4 (v : Nat) : (encodeBE4 v).length = 4 := rfl

theorem decodeBE4_encodeBE4 (v : Nat) (hv : v < 4294967296) :
    decodeBE4 (encodeBE4 v) = (v : Int) := by
  simp only [encodeBE4, decodeBE4]
  omega

theorem receiveInt_encode (v : Nat) (hv : v < 4294967296) (rest : List Byte) :
    receiveInt (encodeBE4 v ++ rest) = .ok ((v : Int), rest) := by
  simp [receiveInt, streamRead, encodeBE4, List.take, List.drop, decodeBE4]
  omega

theorem sendChunks_drop (data : List Byte) (start : Nat) :
    sendChunks data start = data.drop start := by
  have H : ∀ m start, data.length - start ≤ m → sendChunks data start = data.drop start := by
    intro m
    induction m with
    | zero =>
      intro start h
      rw [sendChunks, if_neg (by omega)]
      exact (List.drop_eq_nil_of_le (by omega)).symm
    | succ m ih =>
      intro start h
      rw [sendChunks]
      by_cases hs : start < data.length
      · rw [if_pos hs, ih (start + bufferSize) (by simp only [bufferSize] at *; omega)]
        rw [← List.drop_drop, List.take_append_drop]
      · rw [if_neg hs]
        exact (List.drop_eq_nil_of_le (by omega)).symm
  exact H (data.length - start) start le_rfl

theorem sendInt_natCast (n : Nat) (hn : n < 4294967296) :
    sendInt (n : Int) = encodeBE4 n := by
  have h : (((n : Int) % 4294967296)).toNat = n := by omega
  rw [sendInt, h]

theorem sendBytes_eq (data : List Byte) (h : data.length < 4294967296) :
    sendBytes data = encodeBE4 data.length ++ data := by
  rw [sendBytes, sendChunks_drop, List.drop_zero, sendInt_natCast _ h]

theorem recvLoop_exact (fuel : Nat) :
    ∀ data acc rest : List Byte, data.length ≤ fuel →
      recvLoop fuel data.length acc (data ++ rest) = .ok (acc ++ data, rest) := by
  induction fuel with
  | zero =>
    intro data acc rest h
    have hd : data = [] := List.length_eq_zero.mp (by omega)
    subst hd
    simp [recvLoop]
  | succ fuel ih =>
    intro data acc rest h
    match data with
    | [] => simp [recvLoop]
    | b :: tl =>
      have hk1 : 1 ≤ min bufferSize (tl.length + 1) := by
        simp only [bufferSize]; omega
      have hkle : min bufferSize (tl.length + 1) ≤ (b :: tl).length := by
        simp only [List.length_cons]; omega
      rw [show ((b :: tl).length = tl.length + 1) from rfl, recvLoop]
      rw [streamRead, if_neg (by omega), if_neg (by simp)]
      rw [List.take_append_of_le_length hkle, List.drop_append_of_le_length hkle]
      have hlen : (List.take (min bufferSize (tl.length + 1)) (b :: tl)).length
          = min bufferSize (tl.length + 1) := by
        rw [List.length_take]; simp only [List.length_cons]; omega
      have hrec := ih (List.drop (min bufferSize (tl.length + 1)) (b :: tl))
        (acc ++ List.take (min bufferSize (tl.length + 1)) (b :: tl)) rest
        (by rw [List.length_drop]; simp only [List.length_cons] at *; omega)
      rw [List.length_drop] at hrec
      simp only [List.length_cons] at hrec ⊢
      rw [hlen, hrec, List.append_assoc, List.take_append_drop]

theorem receiveBytes_encode (data rest : List Byte) (h : data.length < 4294967296) :
    receiveBytes (encodeBE4 data.length ++ (data ++ rest)) = .ok (data, rest) := by
  rw [receiveBytes, receiveInt_encode _ h]
  simp only [Int.toNat_natCast]
  exact recvLoop_exact data.length data [] rest le_rfl

theorem receiveBytes_sendBytes (data rest : List Byte) (h : data.length < 4294967296) :
    receiveBytes (sendBytes data ++ rest) = .ok (data, rest) := by
  rw [sendBytes_eq data h, List.append_assoc]
  exact receiveBytes_encode data rest h

theorem decodeBE4_bound (b : List Byte) : 0 ≤ decodeBE4 b ∧ decodeBE4 b < 4294967296 := by
  unfold decodeBE4
  split
  · rename_i b0 b1 b2 b3
    have h0 : b0.val < 256 := b0.isLt
    have h1 : b1.val < 256 := b1.isLt
    have h2 : b2.val < 256 := b2.isLt
    have h3 : b3.val < 256 := b3.isLt
    omega
  · norm_num

theorem roundtrip_wrap (data : List Byte) (h : data.length = 4294967296) :
    receiveBytes (sendBytes data) = .ok (([] : List Byte), sendChunks data 0) := by
  have hsi : sendInt (data.length : Int) = encodeBE4 0 := by
    rw [h, sendInt]
    norm_num
  rw [sendBytes, hsi]
  unfold receiveBytes
  rw [receiveInt_encode 0 (by norm_num)]
  norm_num [recvLoop]

/-- C1 (as stated, counterexample): for the byte sequence of 2^32 zero bytes the
round trip does not return the data: `sendBytes` truncates the length prefix
through `int32`, so the prefix encodes 0 and `receiveBytes` returns the empty
blob. -/
theorem c1_counterexample :
    receiveBytes (sendBytes (List.replicate 4294967296 (0 : Byte)))
      ≠ Except.ok ((List.replicate 4294967296 (0 : Byte), ([] : List Byte))) := by
  intro hcontra
  rw [roundtrip_wrap (List.replicate 4294967296 (0 : Byte)) (List.length_replicate _ _)] at hcontra
  have hlist : ([] : List Byte) = List.replicate 4294967296 (0 : Byte) :=
    congrArg Prod.fst (Except.ok.inj hcontra)
  have hlen := congrArg List.length hlist
  rw [List.length_replicate, List.length_nil] at hlen
  omega

/-- C1 (amended): for every byte sequence of length < 2^32 (the capacity of the
4-byte length prefix), including the empty sequence, `receiveBytes` after
`sendBytes` over a lossless stream yields back exactly the data, regardless of
the 1 MiB chunking. -/
theorem c1_roundtrip (data : List Byte) (h : data.length < 4294967296) :
    receiveBytes (sendBytes data) = .ok (data, []) := by
  have hrt := receiveBytes_sendBytes data [] h
  simpa using hrt

theorem c1_witness :
    (([(5 : Byte), 6] : List Byte).length < 4294967296) ∧
      receiveBytes (sendBytes [(5 : Byte), 6]) = .ok (([(5 : Byte), 6] : List Byte), []) :=
  ⟨by decide, c1_roundtrip [5, 6] (by decide)⟩

/-- C3 (as stated, counterexample): on a stream holding a single byte `0x07`,
`receiveInt` does not fail: the single `reader.Read` returns 1 byte with no
error, the remaining buffer bytes stay zero, and the decode yields
`7 * 2^24 = 117440512`. -/
theorem c3_counterexample :
    receiveInt [(7 : Byte)] = Except.ok ((117440512 : Int), ([] : List Byte)) := rfl

/-- C3 (amended): `receiveInt` issues a single read of at most 4 bytes into a
zero-initialised 4-byte buffer.  It fails (with EOF) only when the stream is
empty; otherwise it consumes `min 4 available` bytes and succeeds.  When at
least 4 bytes are available it reads exactly 4 and decodes them as a
big-endian unsigned 32-bit integer widened to `int` (not a signed decode). -/
theorem c3_receiveInt (s : List Byte) :
    (s = [] → receiveInt s = .error .eof) ∧
    (∀ (b0 b1 b2 b3 : Byte) (rest : List Byte), s = b0 :: b1 :: b2 :: b3 :: rest →
      receiveInt s = .ok ((b0.val : Int) * 16777216 + (b1.val : Int) * 65536
        + (b2.val : Int) * 256 + (b3.val : Int), rest)) ∧
    (s ≠ [] → ∃ v rest, receiveInt s = .ok (v, rest)) := by
  refine ⟨?_, ?_, ?_⟩
  · intro hs; subst hs; rfl
  · intro b0 b1 b2 b3 rest hs
    subst hs
    simp [receiveInt, streamRead, List.take, List.drop, decodeBE4]
  · intro hs
    match s with
    | [] => exact absurd rfl hs
    | b :: tl =>
      exact ⟨_, _, rfl⟩

theorem c3_witness :
    (([(1 : Byte)] : List Byte) ≠ []) ∧ (∃ v rest, receiveInt [(1 : Byte)] = .ok (v, rest)) :=
  ⟨by decide, (c3_receiveInt [(1 : Byte)]).2.2 (by decide)⟩

/-- C6: encoding an integer `n` in `[0, 2^31 - 1]` with `sendInt` and decoding
the resulting 4 bytes with `receiveInt` yields `n` back. -/
theorem c6_codec_roundtrip (n : Int) (h0 : 0 ≤ n) (h1 : n ≤ 2147483647) :
    receiveInt (sendInt n) = .ok (n, []) := by
  have hn : ((n.toNat : Nat) : Int) = n := Int.toNat_of_nonneg h0
  have hlt : n.toNat < 4294967296 := by omega
  have hs : sendInt n = encodeBE4 n.toNat := by
    conv_lhs => rw [← hn]
    exact sendInt_natCast _ hlt
  have hr := receiveInt_encode n.toNat hlt []
  rw [List.append_nil] at hr
  rw [hn] at hr
  rw [hs]
  exact hr

theorem c6_witness :
    (0 ≤ (5 : Int)) ∧ ((5 : Int) ≤ 2147483647) ∧ receiveInt (sendInt 5) = .ok ((5 : Int), []) :=
  ⟨by decide, by decide, c6_codec_roundtrip 5 (by decide) (by decide)⟩

/-- C10: whenever `receiveInt` succeeds its value is non-negative and below
2^32 (the bytes are decoded as an unsigned 32-bit value widened to `int`), so
the buffer `receiveBytes` allocates has exactly that size — never a negative
one. -/
theorem c10_receiveInt_nonneg (s : List Byte) (v : Int) (rest : List Byte)
    (h : receiveInt s = .ok (v, rest)) :
    0 ≤ v ∧ v < 4294967296 ∧ ((v.toNat : Int) = v) ∧
      receiveBytes s = recvLoop v.toNat v.toNat [] rest := by
  have hb : 0 ≤ v ∧ v < 4294967296 := by
    have h' := h
    unfold receiveInt at h'
    cases hsr : streamRead 4 s with
    | error e => rw [hsr] at h'; simp at h'
    | ok pr =>
      obtain ⟨chunk, rest'⟩ := pr
      rw [hsr] at h'
      simp only [Except.ok.injEq, Prod.mk.injEq] at h'
      obtain ⟨hv, -⟩ := h'
      rw [← hv]
      exact decodeBE4_bound _
  refine ⟨hb.1, hb.2, Int.toNat_of_nonneg hb.1, ?_⟩
  simp [receiveBytes, h]

theorem c10_witness :
    receiveInt [(0 : Byte), 0, 1, 0] = .ok ((256 : Int), ([] : List Byte)) ∧
      (0 ≤ (256 : Int) ∧ (256 : Int) < 4294967296 ∧ (((256 : Int).toNat : Nat) : Int) = 256 ∧
        receiveBytes [(0 : Byte), 0, 1, 0] = recvLoop (256 : Int).toNat (256 : Int).toNat [] []) :=
  ⟨rfl, c10_receiveInt_nonneg [(0 : Byte), 0, 1, 0] 256 [] rfl⟩

/-!
Client transfer state machine (`src/client/client.go`).  The fields `err`,
`con`, `writer` and `file` of the Go struct are I/O handles; their observable
outcomes (dial success, write/flush success, open/stat/read success) are
supplied by an oracle, one `FileOutcome` per file index.  Two observation
fields record what the claims speak about: `sentCount` is the file count put
on the wire by `SendFileCountState`, and `attempted` lists the file indices
whose `OpenFileState` ran.
-/

inductive ClientState where
  | Initialization
  | ValidateArgs
  | ParseIP
  | ConnetServer
  | SendFileCount
  | OpenFile
  | SendFileName
  | ReadAndSendFileData
  | SendNextFile
  | HandleFatalError
  | HandleError
  | Terminate
deriving DecidableEq

/-- Outcomes of the per-file I/O operations of one file index:
`os.Open`, `file.Stat()`, `sendBytes` of the name, `os.ReadFile`,
`sendBytes` of the content. -/
structure FileOutcome where
  openOk : Bool
  statOk : Bool
  nameSendOk : Bool
  readOk : Bool
  contentSendOk : Bool

/-- Outcomes of the client's connection-level I/O: `net.Dial` and the
`sendInt` of the file count. -/
structure ClientOracle where
  connectOk : Bool
  countSendOk : Bool
  file : Nat → FileOutcome

structure ClientFSM where
  currentState : ClientState
  args : List String
  ip : String
  port : String
  fileNames : List String
  currentFile : Nat
  sentCount : Option Nat
  attempted : List Nat

/-- `ValidateArgsState`: needs at least `arguments = 3` entries in
`os.Args[1:]`; on success `ip, port := args[0], args[1]` and
`fileNames := args[2:]`. -/
def ClientFSM.ValidateArgsState (fsm : ClientFSM) : ClientFSM :=
  if fsm.args.length < 3 then { fsm with currentState := .HandleFatalError }
  else { fsm with ip := fsm.args.getD 0 "", port := fsm.args.getD 1 "",
                  fileNames := fsm.args.drop 2, currentState := .ParseIP }

/-- `ParseIPState` (client): bracket the host when it contains a colon. -/
def ClientFSM.ParseIPState (fsm : ClientFSM) : ClientFSM :=
  { fsm with ip := if fsm.ip.contains ':' then "[" ++ fsm.ip ++ "]" else fsm.ip,
             currentState := .ConnetServer }

/-- `ConnetServerState`: `net.Dial`; failure is fatal. -/
def ClientFSM.ConnetServerState (o : ClientOracle) (fsm : ClientFSM) : ClientFSM :=
  if o.connectOk then { fsm with currentState := .SendFileCount }
  else { fsm with currentState := .HandleFatalError }

/-- `SendFileCountState`: `sendInt(writer, len(fileNames))`; failure is fatal;
on success `currentFile := 0`. -/
def ClientFSM.SendFileCountState (o : ClientOracle) (fsm : ClientFSM) : ClientFSM :=
  if o.countSendOk then
    { fsm with sentCount := some fsm.fileNames.length, currentFile := 0,
               currentState := .OpenFile }
  else { fsm with currentState := .HandleFatalError }

/-- `OpenFileState`: `os.Open(fileNames[currentFile])`; failure goes to the
per-file handler `HandleError`. -/
def ClientFSM.OpenFileState (o : ClientOracle) (fsm : ClientFSM) : ClientFSM :=
  let fsm' := { fsm with attempted := fsm.attempted ++ [fsm.currentFile] }
  if (o.file fsm.currentFile).openOk then { fsm' with currentState := .SendFileName }
  else { fsm' with currentState := .HandleError }

/-- `SendFileNameState`: `file.Stat()` failure is per-file; `sendBytes` of the
name failing is fatal. -/
def ClientFSM.SendFileNameState (o : ClientOracle) (fsm : ClientFSM) : ClientFSM :=
  if !(o.file fsm.currentFile).statOk then { fsm with currentState := .HandleError }
  else if (o.file fsm.currentFile).nameSendOk then
    { fsm with currentState := .ReadAndSendFileData }
  else { fsm with currentState := .HandleFatalError }

/-- `ReadAndSendFileDataState`: `os.ReadFile` failure is per-file; `sendBytes`
of the content failing is fatal; on success `currentFile++`. -/
def ClientFSM.ReadAndSendFileDataState (o : ClientOracle) (fsm : ClientFSM) : ClientFSM :=
  if !(o.file fsm.currentFile).readOk then { fsm with currentState := .HandleError }
  else if (o.file fsm.currentFile).contentSendOk then
    { fsm with currentFile := fsm.currentFile + 1, currentState := .SendNextFile }
  else { fsm with currentState := .HandleFatalError }

/-- `SendNextFileState`: terminate when `currentFile >= len(fileNames)`. -/
def ClientFSM.SendNextFileState (fsm : ClientFSM) : ClientFSM :=
  if fsm.currentFile ≥ fsm.fileNames.length then { fsm with currentState := .Terminate }
  else { fsm with currentState := .OpenFile }

/-- `HandleFatalErrorState`: log and terminate. -/
def ClientFSM.HandleFatalErrorState (fsm : ClientFSM) : ClientFSM :=
  { fsm with currentState := .Terminate }

/-- `HandleFileError` (bound to the `HandleError` state in `Run`): log, skip
the file by `currentFile++`, continue with `SendNextFile`. -/
def ClientFSM.HandleFileError (fsm : ClientFSM) : ClientFSM :=
  { fsm with currentFile := fsm.currentFile + 1, currentState := .SendNextFile }

/-- One iteration of the `switch` in the client's `Run` loop.  `Terminate`
returns from `Run`; `Initialization` has no case in the switch, so the state
is left unchanged. -/
def clientStep (o : ClientOracle) (fsm : ClientFSM) : ClientFSM :=
  match fsm.currentState with
  | .ValidateArgs => fsm.ValidateArgsState
  | .ParseIP => fsm.ParseIPState
  | .ConnetServer => fsm.ConnetServerState o
  | .SendFileCount => fsm.SendFileCountState o
  | .OpenFile => fsm.OpenFileState o
  | .SendFileName => fsm.SendFileNameState o
  | .ReadAndSendFileData => fsm.ReadAndSendFileDataState o
  | .SendNextFile => fsm.SendNextFileState
  | .HandleFatalError => fsm.HandleFatalErrorState
  | .HandleError => fsm.HandleFileError
  | .Terminate => fsm
  | .Initialization => fsm

/-- The client's `Run` loop, iterated up to a fuel bound (the loop itself is
unbounded; termination is the subject of C9). -/
def clientRun (o : ClientOracle) : Nat → ClientFSM → ClientFSM
  | 0, fsm => fsm
  | fuel + 1, fsm =>
      if fsm.currentState = .Terminate then fsm else clientRun o fuel (clientStep o fsm)

/-- `NewClientFSM` with the process arguments `os.Args[1:]`. -/
def NewClientFSM (args : List String) : ClientFSM :=
  { currentState := .ValidateArgs, args := args, ip := "", port := "", fileNames := [],
    currentFile := 0, sentCount := none, attempted := [] }

/-!
Server accept-loop machine (`ServerFSM` in the server file): only its
`ParseIPState`, which claim C8 compares with the client's, is embedded; the
remaining states act on OS and network facilities outside every claim.
-/

inductive ServerState where
  | Initialization
  | ValidateArgs
  | ParseIP
  | MakeStorageDirectory
  | SetListening
  | Listening
  | Termination
  | FatalError
deriving DecidableEq

structure ServerFSM where
  currentState : ServerState
  ip : String
  port : String
  storageDir : String

/-- `ParseIPState` (server): textually the same bracket step as the client's. -/
def ServerFSM.ParseIPState (fsm : ServerFSM) : ServerFSM :=
  { fsm with ip := if fsm.ip.contains ':' then "[" ++ fsm.ip ++ "]" else fsm.ip,
             currentState := .MakeStorageDirectory }

theorem bracket_ne (ip : String) : "[" ++ ip ++ "]" ≠ ip := by
  intro he
  have hlen := congrArg String.length he
  have h1 : ("[" : String).length = 1 := rfl
  have h2 : ("]" : String).length = 1 := rfl
  rw [String.length_append, String.length_append, h1, h2] at hlen
  omega

/-- C8: the address-parsing step wraps the host in square brackets if and only
if the host contains a colon, and otherwise leaves it unchanged — identically
in the client's and the server's `ParseIPState`. -/
theorem c8_parse_address (c : ClientFSM) (s : ServerFSM) (h : c.ip = s.ip) :
    ((c.ParseIPState).ip = (s.ParseIPState).ip) ∧
    ((c.ParseIPState).ip = "[" ++ c.ip ++ "]" ↔ c.ip.contains ':' = true) ∧
    ((c.ParseIPState).ip = c.ip ↔ c.ip.contains ':' = false) := by
  have hcs : (c.ParseIPState).ip
      = (if c.ip.contains ':' then "[" ++ c.ip ++ "]" else c.ip) := rfl
  have hss : (s.ParseIPState).ip
      = (if s.ip.contains ':' then "[" ++ s.ip ++ "]" else s.ip) := rfl
  refine ⟨?_, ?_, ?_⟩
  · rw [hcs, hss, h]
  · by_cases hc : c.ip.contains ':' = true
    · rw [hcs, if_pos hc]
      exact ⟨fun _ => hc, fun _ => rfl⟩
    · rw [hcs, if_neg hc]
      exact ⟨fun he => absurd he.symm (bracket_ne c.ip), fun hcc => absurd hcc hc⟩
  · by_cases hc : c.ip.contains ':' = true
    · rw [hcs, if_pos hc]
      refine ⟨fun he => absurd he (bracket_ne c.ip), fun hcf => ?_⟩
      rw [hc] at hcf
      exact absurd hcf (by decide)
    · rw [hcs, if_neg hc]
      have hcf : c.ip.contains ':' = false := by simpa using hc
      exact ⟨fun _ => hcf, fun _ => rfl⟩

def c8ClientCfg : ClientFSM :=
  { currentState := .ParseIP, args := [], ip := "::1", port := "9",
    fileNames := [], currentFile := 0, sentCount := none, attempted := [] }

def c8ServerCfg : ServerFSM :=
  { currentState := .ParseIP, ip := "::1", port := "9", storageDir := "d" }

theorem c8_witness :
    (c8ClientCfg.ip = c8ServerCfg.ip) ∧
    ((c8ClientCfg.ParseIPState).ip = (c8ServerCfg.ParseIPState).ip) :=
  ⟨rfl, (c8_parse_address c8ClientCfg c8ServerCfg rfl).1⟩

/-- C4: a failure to open or to read the current file is per-file — the
machine moves to `HandleError`, which skips the file by advancing the cursor
and continues the batch via `SendNextFile` — while a failure sending the
file's name or content is fatal: the machine moves to `HandleFatalError`,
which terminates, attempting no further file. -/
theorem c4_error_handling (o : ClientOracle) (fsm : ClientFSM) :
    (fsm.currentState = .OpenFile → (o.file fsm.currentFile).openOk = false →
      (clientStep o fsm).currentState = .HandleError ∧
      (clientStep o fsm).currentFile = fsm.currentFile) ∧
    (fsm.currentState = .ReadAndSendFileData → (o.file fsm.currentFile).readOk = false →
      (clientStep o fsm).currentState = .HandleError ∧
      (clientStep o fsm).currentFile = fsm.currentFile) ∧
    (fsm.currentState = .HandleError →
      (clientStep o fsm).currentState = .SendNextFile ∧
      (clientStep o fsm).currentFile = fsm.currentFile + 1) ∧
    (fsm.currentState = .SendNextFile → fsm.currentFile < fsm.fileNames.length →
      (clientStep o fsm).currentState = .OpenFile) ∧
    (fsm.currentState = .SendFileName → (o.file fsm.currentFile).statOk = true →
      (o.file fsm.currentFile).nameSendOk = false →
      (clientStep o fsm).currentState = .HandleFatalError) ∧
    (fsm.currentState = .ReadAndSendFileData → (o.file fsm.currentFile).readOk = true →
      (o.file fsm.currentFile).contentSendOk = false →
      (clientStep o fsm).currentState = .HandleFatalError) ∧
    (fsm.currentState = .HandleFatalError →
      (clientStep o fsm).currentState = .Terminate ∧
      (clientStep o fsm).attempted = fsm.attempted) ∧
    (fsm.currentState = .Terminate → clientStep o fsm = fsm) := by
  refine ⟨?_, ?_, ?_, ?_, ?_, ?_, ?_, ?_⟩
  · intro hs hf
    simp [clientStep, hs, ClientFSM.OpenFileState, hf]
  · intro hs hf
    simp [clientStep, hs, ClientFSM.ReadAndSendFileDataState, hf]
  · intro hs
    simp [clientStep, hs, ClientFSM.HandleFileError]
  · intro hs hlt
    simp [clientStep, hs, ClientFSM.SendNextFileState, Nat.not_le.mpr hlt]
  · intro hs h1 h2
    simp [clientStep, hs, ClientFSM.SendFileNameState, h1, h2]
  · intro hs h1 h2
    simp [clientStep, hs, ClientFSM.ReadAndSendFileDataState, h1, h2]
  · intro hs
    simp [clientStep, hs, ClientFSM.HandleFatalErrorState]
  · intro hs
    simp [clientStep, hs]

/-- Oracle whose every per-file operation succeeds except that `os.Open`
fails for every file. -/
def openFailOracle : ClientOracle :=
  { connectOk := true, countSendOk := true,
    file := fun _ => { openOk := false, statOk := true, nameSendOk := true,
                       readOk := true, contentSendOk := true } }

def cfgAtOpenFile : ClientFSM :=
  { currentState := .OpenFile, args := ["h", "1", "a"], ip := "h", port := "1",
    fileNames := ["a"], currentFile := 0, sentCount := some 1, attempted := [] }

def cfgAtFatal : ClientFSM :=
  { currentState := .HandleFatalError, args := ["h", "1", "a"], ip := "h", port := "1",
    fileNames := ["a"], currentFile := 0, sentCount := some 1, attempted := [0] }

theorem c4_witness :
    ((clientStep openFailOracle cfgAtOpenFile).currentState = .HandleError ∧
      (clientStep openFailOracle cfgAtOpenFile).currentFile = cfgAtOpenFile.currentFile) ∧
    ((clientStep openFailOracle cfgAtFatal).currentState = .Terminate ∧
      (clientStep openFailOracle cfgAtFatal).attempted = cfgAtFatal.attempted) :=
  ⟨(c4_error_handling openFailOracle cfgAtOpenFile).1 rfl rfl,
   (c4_error_handling openFailOracle cfgAtFatal).2.2.2.2.2.2.1 rfl⟩

/-- Termination measure for the client `Run` loop: ranks every state above its
possible successors, with one budget of 5 steps per remaining file. -/
def clientRank (c : ClientFSM) : Nat :=
  match c.currentState with
  | .Terminate => 0
  | .Initialization => 0
  | .HandleFatalError => 1
  | .ValidateArgs => 5 * c.args.length + 9
  | .ParseIP => 5 * c.fileNames.length + 8
  | .ConnetServer => 5 * c.fileNames.length + 7
  | .SendFileCount => 5 * c.fileNames.length + 6
  | .SendNextFile => 5 * (c.fileNames.length - c.currentFile) + 2
  | .OpenFile => 5 * (c.fileNames.length - c.currentFile) + 1
  | .SendFileName => 5 * (c.fileNames.length - c.currentFile)
  | .ReadAndSendFileData => 5 * (c.fileNames.length - c.currentFile) - 1
  | .HandleError => 5 * (c.fileNames.length - c.currentFile) - 2

/-- Reachability invariant of the client `Run` loop: the mid-file states keep
the cursor strictly below the batch size, the pre-batch states keep the batch
non-empty, and `Initialization` (no case in the `Run` switch) is unreachable
from `NewClientFSM`. -/
def clientInv (c : ClientFSM) : Prop :=
  match c.currentState with
  | .Initialization => False
  | .ParseIP => 1 ≤ c.fileNames.length
  | .ConnetServer => 1 ≤ c.fileNames.length
  | .SendFileCount => 1 ≤ c.fileNames.length
  | .OpenFile => c.currentFile < c.fileNames.length
  | .SendFileName => c.currentFile < c.fileNames.length
  | .ReadAndSendFileData => c.currentFile < c.fileNames.length
  | .HandleError => c.currentFile < c.fileNames.length
  | _ => True

theorem clientStep_inv (o : ClientOracle) (c : ClientFSM) (h : clientInv c) :
    clientInv (clientStep o c) := by
  cases hs : c.currentState
  case Initialization => simp only [clientInv, hs] at h
  case Terminate => simp [clientStep, hs, clientInv]
  case ValidateArgs =>
    simp only [clientStep, hs, ClientFSM.ValidateArgsState]
    by_cases hlen : c.args.length < 3
    · simp [hlen, clientInv]
    · simp [hlen, clientInv, List.length_drop]
      omega
  case ParseIP =>
    simp only [clientInv, hs] at h
    simp [clientStep, hs, ClientFSM.ParseIPState, clientInv, h]
  case ConnetServer =>
    simp only [clientInv, hs] at h
    simp only [clientStep, hs, ClientFSM.ConnetServerState]
    by_cases hc : o.connectOk = true
    · simp [hc, clientInv, h]
    · simp only [Bool.not_eq_true] at hc
      simp [hc, clientInv]
  case SendFileCount =>
    simp only [clientInv, hs] at h
    simp only [clientStep, hs, ClientFSM.SendFileCountState]
    by_cases hc : o.countSendOk = true
    · simp [hc, clientInv]
      omega
    · simp only [Bool.not_eq_true] at hc
      simp [hc, clientInv]
  case OpenFile =>
    simp only [clientInv, hs] at h
    simp only [clientStep, hs, ClientFSM.OpenFileState]
    by_cases hc : (o.file c.currentFile).openOk = true
    · simp [hc, clientInv, h]
    · simp only [Bool.not_eq_true] at hc
      simp [hc, clientInv, h]
  case SendFileName =>
    simp only [clientInv, hs] at h
    simp only [clientStep, hs, ClientFSM.SendFileNameState]
    cases hstat : (o.file c.currentFile).statOk
    · simp [hstat, clientInv, h]
    · cases hname : (o.file c.currentFile).nameSendOk
      · simp [hstat, hname, clientInv]
      · simp [hstat, hname, clientInv, h]
  case ReadAndSendFileData =>
    simp only [clientInv, hs] at h
    simp only [clientStep, hs, ClientFSM.ReadAndSendFileDataState]
    cases hread : (o.file c.currentFile).readOk
    · simp [hread, clientInv, h]
    · cases hcontent : (o.file c.currentFile).contentSendOk
      · simp [hread, hcontent, clientInv]
      · simp [hread, hcontent, clientInv]
  case SendNextFile =>
    simp only [clientStep, hs, ClientFSM.SendNextFileState]
    by_cases hge : c.currentFile ≥ c.fileNames.length
    · simp [hge, clientInv]
    · simp [hge, clientInv]
      omega
  case HandleError =>
    simp [clientStep, hs, ClientFSM.HandleFileError, clientInv]
  case HandleFatalError =>
    simp [clientStep, hs, ClientFSM.HandleFatalErrorState, clientInv]

theorem clientStep_rank (o : ClientOracle) (c : ClientFSM) (h : clientInv c)
    (ht : c.currentState ≠ .Terminate) : clientRank (clientStep o c) < clientRank c := by
  cases hs : c.currentState
  case Initialization => simp only [clientInv, hs] at h
  case Terminate => exact absurd hs ht
  case ValidateArgs =>
    simp only [clientStep, hs, ClientFSM.ValidateArgsState]
    by_cases hlen : c.args.length < 3
    · simp [hlen, clientRank, hs]
    · simp [hlen, clientRank, hs, List.length_drop]
      omega
  case ParseIP =>
    simp [clientStep, hs, ClientFSM.ParseIPState, clientRank]
  case ConnetServer =>
    simp only [clientStep, hs, ClientFSM.ConnetServerState]
    by_cases hc : o.connectOk = true
    · simp [hc, clientRank, hs]
    · simp only [Bool.not_eq_true] at hc
      simp [hc, clientRank, hs]
  case SendFileCount =>
    simp only [clientStep, hs, ClientFSM.SendFileCountState]
    by_cases hc : o.countSendOk = true
    · simp [hc, clientRank, hs]
    · simp only [Bool.not_eq_true] at hc
      simp [hc, clientRank, hs]
  case OpenFile =>
    simp only [clientInv, hs] at h
    simp only [clientStep, hs, ClientFSM.OpenFileState]
    by_cases hc : (o.file c.currentFile).openOk = true
    · simp [hc, clientRank, hs]
    · simp only [Bool.not_eq_true] at hc
      simp [hc, clientRank, hs]
      omega
  case SendFileName =>
    simp only [clientInv, hs] at h
    simp only [clientStep, hs, ClientFSM.SendFileNameState]
    cases hstat : (o.file c.currentFile).statOk
    · simp [hstat, clientRank, hs]
      omega
    · cases hname : (o.file c.currentFile).nameSendOk
      · simp [hstat, hname, clientRank, hs]
        omega
      · simp [hstat, hname, clientRank, hs]
        omega
  case ReadAndSendFileData =>
    simp only [clientInv, hs] at h
    simp only [clientStep, hs, ClientFSM.ReadAndSendFileDataState]
    cases hread : (o.file c.currentFile).readOk
    · simp [hread, clientRank, hs]
      omega
    · cases hcontent : (o.file c.currentFile).contentSendOk
      · simp [hread, hcontent, clientRank, hs]
        omega
      · simp [hread, hcontent, clientRank, hs]
        omega
  case SendNextFile =>
    simp only [clientStep, hs, ClientFSM.SendNextFileState]
    by_cases hge : c.currentFile ≥ c.fileNames.length
    · simp [hge, clientRank, hs]
    · simp [hge, clientRank, hs]
  case HandleError =>
    simp only [clientInv, hs] at h
    simp [clientStep, hs, ClientFSM.HandleFileError, clientRank]
    omega
  case HandleFatalError =>
    simp [clientStep, hs, ClientFSM.HandleFatalErrorState, clientRank]

theorem clientRun_halt (o : ClientOracle) :
    ∀ k c, clientInv c → clientRank c ≤ k → (clientRun o k c).currentState = .Terminate := by
  intro k
  induction k with
  | zero =>
    intro c hinv hrank
    have hterm : c.currentState = .Terminate := by
      cases hs : c.currentState
      case Terminate => rfl
      all_goals simp only [clientInv, hs] at hinv
      all_goals simp only [clientRank, hs] at hrank
      all_goals omega
    simp only [clientRun]
    exact hterm
  | succ k ih =>
    intro c hinv hrank
    by_cases ht : c.currentState = .Terminate
    · simp [clientRun, ht]
    · simp only [clientRun, if_neg ht]
      exact ih (clientStep o c) (clientStep_inv o c hinv)
        (by have := clientStep_rank o c hinv ht; omega)

/-- C9: for every finite argument list and every outcome of the I/O
operations, the client state machine's `Run` loop terminates: it reaches
`Terminate` within `5 * |args| + 9` iterations (each file iteration either
terminates the run or strictly advances the bounded file cursor). -/
theorem c9_run_terminates (args : List String) (o : ClientOracle) :
    (clientRun o (5 * args.length + 9) (NewClientFSM args)).currentState = .Terminate :=
  clientRun_halt o _ _ (by simp [clientInv, NewClientFSM]) (by simp [clientRank, NewClientFSM])

theorem clientRun_term (o : ClientOracle) (g : Nat) (c : ClientFSM)
    (h : c.currentState = .Terminate) : clientRun o g c = c := by
  cases g with
  | zero => rfl
  | succ g => simp [clientRun, h]

theorem clientRun_succ (o : ClientOracle) (f : Nat) (c : ClientFSM)
    (ht : ¬ c.currentState = .Terminate) :
    clientRun o (f + 1) c = clientRun o f (clientStep o c) := by
  simp [clientRun, ht]

theorem clientRun_mono (o : ClientOracle) :
    ∀ f g c, f ≤ g → (clientRun o f c).currentState = .Terminate →
      clientRun o g c = clientRun o f c := by
  intro f
  induction f with
  | zero =>
    intro g c _ h
    have h0 : clientRun o 0 c = c := rfl
    rw [h0] at h ⊢
    exact clientRun_term o g c h
  | succ f ih =>
    intro g c hle h
    by_cases ht : c.currentState = .Terminate
    · rw [clientRun_term o g c ht, clientRun_term o (f + 1) c ht]
    · obtain ⟨g', rfl⟩ : ∃ g', g = g' + 1 := ⟨g - 1, by omega⟩
      rw [clientRun_succ o g' c ht, clientRun_succ o f c ht]
      rw [clientRun_succ o f c ht] at h
      exact ih g' (clientStep o c) (by omega) h

theorem c5_loop (o : ClientOracle) :
    ∀ r c, c.currentState = .OpenFile →
      c.fileNames.length - c.currentFile = r →
      c.currentFile < c.fileNames.length →
      (∀ i, c.currentFile ≤ i → i < c.fileNames.length →
        ((o.file i).openOk = true → (o.file i).statOk = true →
          (o.file i).nameSendOk = true) ∧
        ((o.file i).openOk = true → (o.file i).statOk = true →
          (o.file i).readOk = true → (o.file i).contentSendOk = true)) →
      (clientRun o (5 * r + 2) c).currentState = .Terminate ∧
      (clientRun o (5 * r + 2) c).attempted
        = c.attempted ++ List.range' c.currentFile (c.fileNames.length - c.currentFile) ∧
      (clientRun o (5 * r + 2) c).sentCount = c.sentCount := by
  intro r
  induction r with
  | zero =>
    intro c hcs hr hlt _
    omega
  | succ r ih =>
    intro c hcs hr hlt hok
    set cfg' : ClientFSM :=
      { c with currentState := .SendNextFile, currentFile := c.currentFile + 1,
               attempted := c.attempted ++ [c.currentFile] } with hcfg
    have hfinish : ∀ Frem, 5 * r + 3 ≤ Frem →
        (clientRun o Frem cfg').currentState = .Terminate ∧
        (clientRun o Frem cfg').attempted
          = c.attempted ++ List.range' c.currentFile (c.fileNames.length - c.currentFile) ∧
        (clientRun o Frem cfg').sentCount = c.sentCount := by
      intro Frem hF
      obtain ⟨F1, rfl⟩ : ∃ F1, Frem = F1 + 1 := ⟨Frem - 1, by omega⟩
      rw [clientRun_succ o F1 cfg' (by rw [hcfg]; simp)]
      by_cases hend : c.currentFile + 1 ≥ c.fileNames.length
      · have hstep : clientStep o cfg' = { cfg' with currentState := .Terminate } := by
          rw [hcfg]
          simp [clientStep, ClientFSM.SendNextFileState, hend]
        rw [hstep, clientRun_term o F1 _ (by simp)]
        refine ⟨rfl, ?_, by rw [hcfg]⟩
        rw [show c.fileNames.length - c.currentFile = 1 from by omega, List.range'_one]
      · have hstep : clientStep o cfg' = { cfg' with currentState := .OpenFile } := by
          rw [hcfg]
          simp [clientStep, ClientFSM.SendNextFileState, hend]
        have hres := ih { cfg' with currentState := .OpenFile }
          (by rw [hcfg]) (by rw [hcfg]; simp; omega) (by rw [hcfg]; simp; omega)
          (by rw [hcfg]; simp; exact fun i hi hilen => hok i (by omega) hilen)
        have hm := clientRun_mono o (5 * r + 2) F1 { cfg' with currentState := .OpenFile }
          (by omega) hres.1
        rw [hstep, hm]
        refine ⟨hres.1, ?_, ?_⟩
        · rw [hres.2.1, hcfg]
          simp only [List.append_assoc, List.singleton_append]
          rw [show c.fileNames.length - c.currentFile
              = (c.fileNames.length - (c.currentFile + 1)) + 1 from by omega,
            List.range'_succ]
        · rw [hres.2.2, hcfg]
    cases hopen : (o.file c.currentFile).openOk
    case false =>
      have h1 : clientStep o c
          = { c with attempted := c.attempted ++ [c.currentFile],
                     currentState := .HandleError } := by
        simp [clientStep, hcs, ClientFSM.OpenFileState, hopen]
      have h2 : clientStep o
            { c with attempted := c.attempted ++ [c.currentFile],
                     currentState := .HandleError }
          = cfg' := by
        rw [hcfg]
        rfl
      rw [show 5 * (r + 1) + 2 = (5 * r + 5) + 1 + 1 from by omega,
        clientRun_succ o _ c (by simp [hcs]), h1,
        clientRun_succ o _ _ (by simp), h2]
      exact hfinish (5 * r + 5) (by omega)
    case true =>
      have h1 : clientStep o c
          = { c with attempted := c.attempted ++ [c.currentFile],
                     currentState := .SendFileName } := by
        simp [clientStep, hcs, ClientFSM.OpenFileState, hopen]
      cases hstat : (o.file c.currentFile).statOk
      case false =>
        have h2 : clientStep o
              { c with attempted := c.attempted ++ [c.currentFile],
                       currentState := .SendFileName }
            = { c with attempted := c.attempted ++ [c.currentFile],
                       currentState := .HandleError } := by
          simp [clientStep, ClientFSM.SendFileNameState, hstat]
        have h3 : clientStep o
              { c with attempted := c.attempted ++ [c.currentFile],
                       currentState := .HandleError }
            = cfg' := by
          rw [hcfg]
          rfl
        rw [show 5 * (r + 1) + 2 = (5 * r + 4) + 1 + 1 + 1 from by omega,
          clientRun_succ o _ c (by simp [hcs]), h1,
          clientRun_succ o _ _ (by simp), h2,
          clientRun_succ o _ _ (by simp), h3]
        exact hfinish (5 * r + 4) (by omega)
      case true =>
        have hname : (o.file c.currentFile).nameSendOk = true :=
          (hok c.currentFile le_rfl hlt).1 hopen hstat
        have h2 : clientStep o
              { c with attempted := c.attempted ++ [c.currentFile],
                       currentState := .SendFileName }
            = { c with attempted := c.attempted ++ [c.currentFile],
                       currentState := .ReadAndSendFileData } := by
          simp [clientStep, ClientFSM.SendFileNameState, hstat, hname]
        cases hread : (o.file c.currentFile).readOk
        case false =>
          have h3 : clientStep o
                { c with attempted := c.attempted ++ [c.currentFile],
                         currentState := .ReadAndSendFileData }
              = { c with attempted := c.attempted ++ [c.currentFile],
                         currentState := .HandleError } := by
            simp [clientStep, ClientFSM.ReadAndSendFileDataState, hread]
          have h4 : clientStep o
                { c with attempted := c.attempted ++ [c.currentFile],
                         currentState := .HandleError }
              = cfg' := by
            rw [hcfg]
            rfl
          rw [show 5 * (r + 1) + 2 = (5 * r + 3) + 1 + 1 + 1 + 1 from by omega,
            clientRun_succ o _ c (by simp [hcs]), h1,
            clientRun_succ o _ _ (by simp), h2,
            clientRun_succ o _ _ (by simp), h3,
            clientRun_succ o _ _ (by simp), h4]
          exact hfinish (5 * r + 3) (by omega)
        case true =>
          have hcontent : (o.file c.currentFile).contentSendOk = true :=
            (hok c.currentFile le_rfl hlt).2 hopen hstat hread
          have h3 : clientStep o
                { c with attempted := c.attempted ++ [c.currentFile],
                         currentState := .ReadAndSendFileData }
              = cfg' := by
            rw [hcfg]
            simp [clientStep, ClientFSM.ReadAndSendFileDataState, hread, hcontent]
          rw [show 5 * (r + 1) + 2 = (5 * r + 4) + 1 + 1 + 1 from by omega,
            clientRun_succ o _ c (by simp [hcs]), h1,
            clientRun_succ o _ _ (by simp), h2,
            clientRun_succ o _ _ (by simp), h3]
          exact hfinish (5 * r + 4) (by omega)

/-- Oracle in which every connection-level operation succeeds and, for every
file, open/stat/read succeed but sending the file name fails (a mid-stream
write failure). -/
def nameSendFailOracle : ClientOracle :=
  { connectOk := true, countSendOk := true,
    file := fun _ => { openOk := true, statOk := true, nameSendOk := false,
                       readOk := true, contentSendOk := true } }

/-- C5 (as stated, counterexample): a run with two files `a`, `b` in which
sending the name of file `a` fails fatally: the count 2 is sent on the wire
but only file `a` is ever attempted (`attempted = [0]`), so the count sent
differs from the number of files attempted. -/
theorem c5_counterexample :
    (clientRun nameSendFailOracle 25 (NewClientFSM ["h", "9", "a", "b"])).sentCount
        = some 2 ∧
    (clientRun nameSendFailOracle 25 (NewClientFSM ["h", "9", "a", "b"])).attempted
        = [0] ∧
    (clientRun nameSendFailOracle 25 (NewClientFSM ["h", "9", "a", "b"])).currentState
        = .Terminate :=
  ⟨rfl, rfl, rfl⟩

/-- C5 (amended): for every client run that reaches `SendFileCount`, sends the
count successfully, and encounters no fatal send error afterwards, the file
count sent on the wire equals the number of files the client subsequently
attempts: each file in the argument list is attempted exactly once, even when
some attempts fail per-file. -/
theorem c5_count_attempted (ip port : String) (files : List String) (o : ClientOracle)
    (hne : files ≠ []) (hconn : o.connectOk = true) (hcount : o.countSendOk = true)
    (hnofatal : ∀ i, i < files.length →
      ((o.file i).openOk = true → (o.file i).statOk = true →
        (o.file i).nameSendOk = true) ∧
      ((o.file i).openOk = true → (o.file i).statOk = true →
        (o.file i).readOk = true → (o.file i).contentSendOk = true)) :
    (clientRun o (5 * (ip :: port :: files).length + 9)
        (NewClientFSM (ip :: port :: files))).currentState = .Terminate ∧
    (clientRun o (5 * (ip :: port :: files).length + 9)
        (NewClientFSM (ip :: port :: files))).sentCount = some files.length ∧
    (clientRun o (5 * (ip :: port :: files).length + 9)
        (NewClientFSM (ip :: port :: files))).attempted = List.range files.length := by
  have hflen : 0 < files.length := List.length_pos.mpr hne
  have hF : 5 * (ip :: port :: files).length + 9
      = (5 * files.length + 15) + 1 + 1 + 1 + 1 := by
    simp only [List.length_cons]
    omega
  have h1 : clientStep o (NewClientFSM (ip :: port :: files))
      = { currentState := .ParseIP, args := ip :: port :: files, ip := ip, port := port,
          fileNames := files, currentFile := 0, sentCount := none, attempted := [] } := by
    have h3 : ¬((ip :: port :: files).length < 3) := by
      simp only [List.length_cons]
      omega
    simp [clientStep, NewClientFSM, ClientFSM.ValidateArgsState, h3]
    omega
  have h2 : clientStep o
        { currentState := .ParseIP, args := ip :: port :: files, ip := ip, port := port,
          fileNames := files, currentFile := 0, sentCount := none, attempted := [] }
      = { currentState := .ConnetServer, args := ip :: port :: files,
          ip := if ip.contains ':' then "[" ++ ip ++ "]" else ip, port := port,
          fileNames := files, currentFile := 0, sentCount := none, attempted := [] } := rfl
  have h3 : clientStep o
        { currentState := .ConnetServer, args := ip :: port :: files,
          ip := if ip.contains ':' then "[" ++ ip ++ "]" else ip, port := port,
          fileNames := files, currentFile := 0, sentCount := none, attempted := [] }
      = { currentState := .SendFileCount, args := ip :: port :: files,
          ip := if ip.contains ':' then "[" ++ ip ++ "]" else ip, port := port,
          fileNames := files, currentFile := 0, sentCount := none, attempted := [] } := by
    simp [clientStep, ClientFSM.ConnetServerState, hconn]
  have h4 : clientStep o
        { currentState := .SendFileCount, args := ip :: port :: files,
          ip := if ip.contains ':' then "[" ++ ip ++ "]" else ip, port := port,
          fileNames := files, currentFile := 0, sentCount := none, attempted := [] }
      = { currentState := .OpenFile, args := ip :: port :: files,
          ip := if ip.contains ':' then "[" ++ ip ++ "]" else ip, port := port,
          fileNames := files, currentFile := 0, sentCount := some files.length,
          attempted := [] } := by
    simp [clientStep, ClientFSM.SendFileCountState, hcount]
  have hloop := c5_loop o files.length
    { currentState := .OpenFile, args := ip :: port :: files,
      ip := if ip.contains ':' then "[" ++ ip ++ "]" else ip, port := port,
      fileNames := files, currentFile := 0, sentCount := some files.length,
      attempted := [] }
    rfl (by simp) (by simpa using hflen)
    (fun i _ hi => hnofatal i hi)
  have hm := clientRun_mono o (5 * files.length + 2) (5 * files.length + 15)
    { currentState := .OpenFile, args := ip :: port :: files,
      ip := if ip.contains ':' then "[" ++ ip ++ "]" else ip, port := port,
      fileNames := files, currentFile := 0, sentCount := some files.length,
      attempted := [] }
    (by omega) hloop.1
  rw [hF, clientRun_succ o _ _ (by simp [NewClientFSM]), h1,
    clientRun_succ o _ _ (by simp), h2,
    clientRun_succ o _ _ (by simp), h3,
    clientRun_succ o _ _ (by simp), h4, hm]
  refine ⟨hloop.1, ?_, ?_⟩
  · rw [hloop.2.2]
  · rw [hloop.2.1, List.range_eq_range']
    simp

def allOkOracle : ClientOracle :=
  { connectOk := true, countSendOk := true,
    file := fun _ => { openOk := true, statOk := true, nameSendOk := true,
                       readOk := true, contentSendOk := true } }

theorem c5_witness :
    (clientRun allOkOracle (5 * (["h", "9", "a"] : List String).length + 9)
        (NewClientFSM ["h", "9", "a"])).currentState = .Terminate ∧
    (clientRun allOkOracle (5 * (["h", "9", "a"] : List String).length + 9)
        (NewClientFSM ["h", "9", "a"])).sentCount = some (["a"] : List String).length ∧
    (clientRun allOkOracle (5 * (["h", "9", "a"] : List String).length + 9)
        (NewClientFSM ["h", "9", "a"])).attempted = List.range (["a"] : List String).length :=
  c5_count_attempted "h" "9" ["a"] allOkOracle (by simp) rfl rfl
    (fun i _ => ⟨fun _ _ => rfl, fun _ _ _ => rfl⟩)

/-!
Server receive state machine (`HandleClientFSM` in the server file).  The
`reader`/`con` handles are replaced by `stream`, the list of bytes the client
side of the connection still holds; `os.Create`/`file.Write` outcomes come
from an oracle indexed by the number of files written so far.  Observation
fields: `logs` collects the lines `HandleErrorState` prints, and
`writtenFiles` the (name, content) pairs persisted by `WriteFileState`
(whose progress print is not modelled).  File names travel as raw bytes;
the Go `string(fileName)` conversion is kept as the identity on bytes.
-/

inductive HandleClientState where
  | ReadNumFiles
  | ReadFileName
  | ReadFileContent
  | WriteFile
  | ReceiveNextFile
  | HandleError
  | Exit
deriving DecidableEq

structure HandleClientFSM where
  currentState : HandleClientState
  numFiles : Int
  currentFile : Int
  fileName : List Byte
  fileContent : List Byte
  storageDir : String
  stream : List Byte
  logs : List String
  err : Option GoError
  writtenFiles : List (List Byte × List Byte)

/-- `NewHandleClientFSM(con, storageDir)`: `numFiles` starts at its Go zero
value, `currentFile` at 0. -/
def NewHandleClientFSM (stream : List Byte) (storageDir : String) : HandleClientFSM :=
  { currentState := .ReadNumFiles, numFiles := 0, currentFile := 0, fileName := [],
    fileContent := [], storageDir := storageDir, stream := stream, logs := [],
    err := none, writtenFiles := [] }

/-- `ReadNumFilesState`: `numFiles, err = receiveInt(reader)`. -/
def HandleClientFSM.ReadNumFilesState (fsm : HandleClientFSM) : HandleClientFSM :=
  match receiveInt fsm.stream with
  | .error e => { fsm with err := some e, currentState := .HandleError }
  | .ok (v, rest) => { fsm with numFiles := v, stream := rest, currentState := .ReadFileName }

/-- `ReadFileNameState`: `fileName, err = receiveBytes(reader)`. -/
def HandleClientFSM.ReadFileNameState (fsm : HandleClientFSM) : HandleClientFSM :=
  match receiveBytes fsm.stream with
  | .error e => { fsm with err := some e, currentState := .HandleError }
  | .ok (bs, rest) => { fsm with fileName := bs, stream := rest, currentState := .ReadFileContent }

/-- `ReadFileContentState`: `fileContent, err = receiveBytes(reader)`. -/
def HandleClientFSM.ReadFileContentState (fsm : HandleClientFSM) : HandleClientFSM :=
  match receiveBytes fsm.stream with
  | .error e => { fsm with err := some e, currentState := .HandleError }
  | .ok (bs, rest) => { fsm with fileContent := bs, stream := rest, currentState := .WriteFile }

/-- `WriteFileState`: `os.Create(storageDir + "/" + fileName)` and
`file.Write(fileContent)`; on success the file counter advances; on failure
the error routes to `HandleError` (the concrete `*PathError` message is
abstracted; it is not `"EOF"`). -/
def HandleClientFSM.WriteFileState (w : Nat → Bool) (fsm : HandleClientFSM) : HandleClientFSM :=
  if w fsm.writtenFiles.length then
    { fsm with writtenFiles := fsm.writtenFiles ++ [(fsm.fileName, fsm.fileContent)],
               currentFile := fsm.currentFile + 1, currentState := .ReceiveNextFile }
  else { fsm with err := some (.other "create failed"), currentState := .HandleError }

/-- `ReceiveNextFileState`: exit exactly on `currentFile == numFiles`. -/
def HandleClientFSM.ReceiveNextFileState (fsm : HandleClientFSM) : HandleClientFSM :=
  if fsm.currentFile = fsm.numFiles then { fsm with currentState := .Exit }
  else { fsm with currentState := .ReadFileName }

/-- The lines `HandleErrorState` prints for error `e`: the client-closed line
only when `err.Error() == "EOF"`, and the generic `fmt.Println("Error:", err)`
line unconditionally (the `if` has no `else`). -/
def HandleErrorLines (e : GoError) : List String :=
  (if errString e = "EOF" then ["Error: Client closed connection"] else [])
    ++ ["Error: " ++ errString e]

/-- `HandleErrorState`: print and exit.  (With a nil `err` the Go code would
crash on `fsm.err.Error()`; that configuration is unreachable because every
transition into `HandleError` sets `err`.) -/
def HandleClientFSM.HandleErrorState (fsm : HandleClientFSM) : HandleClientFSM :=
  match fsm.err with
  | some e => { fsm with logs := fsm.logs ++ HandleErrorLines e, currentState := .Exit }
  | none => { fsm with currentState := .Exit }

/-- One iteration of the `for fsm.currentState != Exit` switch in the
handler's `Run`. -/
def serverStep (w : Nat → Bool) (fsm : HandleClientFSM) : HandleClientFSM :=
  match fsm.currentState with
  | .ReadNumFiles => fsm.ReadNumFilesState
  | .ReadFileName => fsm.ReadFileNameState
  | .ReadFileContent => fsm.ReadFileContentState
  | .WriteFile => fsm.WriteFileState w
  | .ReceiveNextFile => fsm.ReceiveNextFileState
  | .HandleError => fsm.HandleErrorState
  | .Exit => fsm

/-- The handler's `Run` loop, iterated up to a fuel bound. -/
def serverRun (w : Nat → Bool) : Nat → HandleClientFSM → HandleClientFSM
  | 0, fsm => fsm
  | fuel + 1, fsm =>
      if fsm.currentState = .Exit then fsm else serverRun w fuel (serverStep w fsm)

/-- The byte stream a client puts on the wire for a list of
(name, content) File Units: each unit is the name blob then the content blob,
both written by `sendBytes`. -/
def encodeUnits : List (List Byte × List Byte) → List Byte
  | [] => []
  | u :: rest => sendBytes u.1 ++ (sendBytes u.2 ++ encodeUnits rest)

theorem serverRun_term (w : Nat → Bool) (g : Nat) (c : HandleClientFSM)
    (h : c.currentState = .Exit) : serverRun w g c = c := by
  cases g with
  | zero => rfl
  | succ g => simp [serverRun, h]

theorem serverRun_succ (w : Nat → Bool) (f : Nat) (c : HandleClientFSM)
    (ht : ¬ c.currentState = .Exit) :
    serverRun w (f + 1) c = serverRun w f (serverStep w c) := by
  simp [serverRun, ht]

theorem c2_loop (w : Nat → Bool) (hw : ∀ i, w i = true) :
    ∀ (units : List (List Byte × List Byte)) (c : HandleClientFSM),
      (∀ u ∈ units, u.1.length < 4294967296 ∧ u.2.length < 4294967296) →
      c.currentState = .ReadFileName →
      c.stream = encodeUnits units →
      c.numFiles = c.currentFile + (units.length : Int) →
      (serverRun w (4 * units.length + 2) c).currentState = .Exit ∧
      (serverRun w (4 * units.length + 2) c).currentFile = c.numFiles ∧
      (serverRun w (4 * units.length + 2) c).writtenFiles = c.writtenFiles ++ units := by
  intro units
  induction units with
  | nil =>
    intro c hwf hcs hstream hnum
    have hrb : receiveBytes c.stream = .error .eof := by
      rw [hstream]
      rfl
    have h1 : serverStep w c = { c with err := some .eof, currentState := .HandleError } := by
      simp [serverStep, hcs, HandleClientFSM.ReadFileNameState, hrb]
    have h2 : serverStep w { c with err := some .eof, currentState := .HandleError }
        = { c with err := some .eof, logs := c.logs ++ HandleErrorLines .eof,
                   currentState := .Exit } := by
      simp [serverStep, HandleClientFSM.HandleErrorState]
    rw [show 4 * ([] : List (List Byte × List Byte)).length + 2 = 0 + 1 + 1 from by simp,
      serverRun_succ w _ c (by simp [hcs]), h1,
      serverRun_succ w _ _ (by simp), h2]
    refine ⟨rfl, ?_, by show c.writtenFiles = c.writtenFiles ++ []; simp⟩
    show c.currentFile = c.numFiles
    simp only [List.length_nil, Nat.cast_zero] at hnum
    omega
  | cons u rest ih =>
    intro c hwf hcs hstream hnum
    have hu := hwf u (List.mem_cons_self u rest)
    have h1 : serverStep w c
        = { c with fileName := u.1, stream := sendBytes u.2 ++ encodeUnits rest,
                   currentState := .ReadFileContent } := by
      simp [serverStep, hcs, HandleClientFSM.ReadFileNameState, hstream, encodeUnits,
        receiveBytes_sendBytes u.1 (sendBytes u.2 ++ encodeUnits rest) hu.1]
    have h2 : serverStep w
          { c with fileName := u.1, stream := sendBytes u.2 ++ encodeUnits rest,
                   currentState := .ReadFileContent }
        = { c with fileName := u.1, fileContent := u.2, stream := encodeUnits rest,
                   currentState := .WriteFile } := by
      simp [serverStep, HandleClientFSM.ReadFileContentState,
        receiveBytes_sendBytes u.2 (encodeUnits rest) hu.2]
    have h3 : serverStep w
          { c with fileName := u.1, fileContent := u.2, stream := encodeUnits rest,
                   currentState := .WriteFile }
        = { c with fileName := u.1, fileContent := u.2, stream := encodeUnits rest,
                   writtenFiles := c.writtenFiles ++ [(u.1, u.2)],
                   currentFile := c.currentFile + 1,
                   currentState := .ReceiveNextFile } := by
      simp [serverStep, HandleClientFSM.WriteFileState, hw c.writtenFiles.length]
    cases rest with
    | nil =>
      have hnum1 : c.currentFile + 1 = c.numFiles := by
        simp only [List.length_cons, List.length_nil] at hnum
        omega
      have h4 : serverStep w
            { c with fileName := u.1, fileContent := u.2, stream := encodeUnits [],
                     writtenFiles := c.writtenFiles ++ [(u.1, u.2)],
                     currentFile := c.currentFile + 1,
                     currentState := .ReceiveNextFile }
          = { c with fileName := u.1, fileContent := u.2, stream := encodeUnits [],
                     writtenFiles := c.writtenFiles ++ [(u.1, u.2)],
                     currentFile := c.currentFile + 1,
                     currentState := .Exit } := by
        simp [serverStep, HandleClientFSM.ReceiveNextFileState, hnum1]
      rw [show 4 * ([u] : List (List Byte × List Byte)).length + 2 = 2 + 1 + 1 + 1 + 1
          from by simp,
        serverRun_succ w _ c (by simp [hcs]), h1,
        serverRun_succ w _ _ (by simp), h2,
        serverRun_succ w _ _ (by simp), h3,
        serverRun_succ w _ _ (by simp), h4,
        serverRun_term w 2 _ (by simp)]
      exact ⟨rfl, hnum1, by simp⟩
    | cons v rest' =>
      have hne : ¬(c.currentFile + 1 = c.numFiles) := by
        simp only [List.length_cons] at hnum
        have : ((rest'.length + 1 + 1 : Nat) : Int) = (rest'.length : Int) + 2 := by
          push_cast
          ring
        rw [this] at hnum
        omega
      have h4 : serverStep w
            { c with fileName := u.1, fileContent := u.2,
                     stream := encodeUnits (v :: rest'),
                     writtenFiles := c.writtenFiles ++ [(u.1, u.2)],
                     currentFile := c.currentFile + 1,
                     currentState := .ReceiveNextFile }
          = { c with fileName := u.1, fileContent := u.2,
                     stream := encodeUnits (v :: rest'),
                     writtenFiles := c.writtenFiles ++ [(u.1, u.2)],
                     currentFile := c.currentFile + 1,
                     currentState := .ReadFileName } := by
        simp [serverStep, HandleClientFSM.ReceiveNextFileState, hne]
      have hres := ih
        { c with fileName := u.1, fileContent := u.2, stream := encodeUnits (v :: rest'),
                 writtenFiles := c.writtenFiles ++ [(u.1, u.2)],
                 currentFile := c.currentFile + 1, currentState := .ReadFileName }
        (fun x hx => hwf x (List.mem_cons_of_mem u hx)) rfl rfl
        (by
          simp only [List.length_cons] at hnum ⊢
          push_cast at hnum ⊢
          omega)
      rw [show 4 * ((u :: v :: rest') : List (List Byte × List Byte)).length + 2
          = (4 * (v :: rest').length + 2) + 1 + 1 + 1 + 1 from by
            simp [List.length_cons]
            ring,
        serverRun_succ w _ c (by simp [hcs]), h1,
        serverRun_succ w _ _ (by simp), h2,
        serverRun_succ w _ _ (by simp), h3,
        serverRun_succ w _ _ (by simp), h4]
      refine ⟨hres.1, ?_, ?_⟩
      · rw [hres.2.1]
      · rw [hres.2.2]
        simp

/-- C2: for a session whose stream carries exactly the declared count followed
by that many well-formed File Units, with every file write succeeding, the
receive machine reaches `Exit` having processed exactly the declared count of
files — never more, never fewer — for every count, including zero (with a
zero count the machine still attempts `ReadFileName`, hits EOF on the closed
stream, and exits through `HandleError` having processed zero files). -/
theorem c2_server_count (units : List (List Byte × List Byte))
    (hwf : ∀ u ∈ units, u.1.length < 4294967296 ∧ u.2.length < 4294967296)
    (hn : units.length < 4294967296)
    (w : Nat → Bool) (hw : ∀ i, w i = true) (storageDir : String) :
    (serverRun w (4 * units.length + 3)
        (NewHandleClientFSM (sendInt (units.length : Int) ++ encodeUnits units)
          storageDir)).currentState = .Exit ∧
    (serverRun w (4 * units.length + 3)
        (NewHandleClientFSM (sendInt (units.length : Int) ++ encodeUnits units)
          storageDir)).currentFile = (units.length : Int) ∧
    (serverRun w (4 * units.length + 3)
        (NewHandleClientFSM (sendInt (units.length : Int) ++ encodeUnits units)
          storageDir)).writtenFiles = units := by
  have hsi : sendInt ((units.length : Nat) : Int) = encodeBE4 units.length :=
    sendInt_natCast units.length hn
  have hri : receiveInt (sendInt ((units.length : Nat) : Int) ++ encodeUnits units)
      = .ok ((units.length : Int), encodeUnits units) := by
    rw [hsi]
    exact receiveInt_encode units.length hn (encodeUnits units)
  have h1 : serverStep w
        (NewHandleClientFSM (sendInt (units.length : Int) ++ encodeUnits units) storageDir)
      = { currentState := .ReadFileName, numFiles := (units.length : Int),
          currentFile := 0, fileName := [], fileContent := [], storageDir := storageDir,
          stream := encodeUnits units, logs := [], err := none, writtenFiles := [] } := by
    simp [serverStep, NewHandleClientFSM, HandleClientFSM.ReadNumFilesState, hri]
  have hres := c2_loop w hw units
    { currentState := .ReadFileName, numFiles := (units.length : Int),
      currentFile := 0, fileName := [], fileContent := [], storageDir := storageDir,
      stream := encodeUnits units, logs := [], err := none, writtenFiles := [] }
    hwf rfl rfl (by simp)
  rw [show 4 * units.length + 3 = (4 * units.length + 2) + 1 from by omega,
    serverRun_succ w _ _ (by simp [NewHandleClientFSM]), h1]
  refine ⟨hres.1, ?_, ?_⟩
  · rw [hres.2.1]
  · rw [hres.2.2]
    simp

theorem c2_witness :
    (serverRun (fun _ => true) 7
        (NewHandleClientFSM
          (sendInt (([([(104 : Byte)], [(105 : Byte)])] : List (List Byte × List Byte)).length : Int)
            ++ encodeUnits [([(104 : Byte)], [(105 : Byte)])]) "d")).currentState = .Exit ∧
    (serverRun (fun _ => true) 7
        (NewHandleClientFSM
          (sendInt (([([(104 : Byte)], [(105 : Byte)])] : List (List Byte × List Byte)).length : Int)
            ++ encodeUnits [([(104 : Byte)], [(105 : Byte)])]) "d")).currentFile = 1 ∧
    (serverRun (fun _ => true) 7
        (NewHandleClientFSM
          (sendInt (([([(104 : Byte)], [(105 : Byte)])] : List (List Byte × List Byte)).length : Int)
            ++ encodeUnits [([(104 : Byte)], [(105 : Byte)])]) "d")).writtenFiles
      = [([(104 : Byte)], [(105 : Byte)])] :=
  c2_server_count [([104], [105])] (by decide) (by decide) (fun _ => true) (fun _ => rfl) "d"

/-- C7 (as stated, counterexample): on an EOF error the handler prints the
client-closed-connection line AND the generic `Error: EOF` line — the `if` in
`HandleErrorState` has no `else`, so EOF is not reported INSTEAD of the
generic error, refuting the claim's "rather than a generic error". -/
theorem c7_counterexample :
    HandleErrorLines GoError.eof
      = ["Error: Client closed connection", "Error: EOF"] := rfl

/-- C7 (amended): whenever the receive machine is in `HandleError` it
transitions unconditionally to `Exit`; an EOF error is reported with the
client-closed-connection line in addition to the generic report (which is
printed for every error, EOF included); any non-EOF error is reported with
exactly the generic line. -/
theorem c7_handle_error (w : Nat → Bool) (c : HandleClientFSM) (e : GoError)
    (hcs : c.currentState = .HandleError) (he : c.err = some e) :
    (serverStep w c).currentState = .Exit ∧
    (serverStep w c).logs = c.logs ++ HandleErrorLines e ∧
    (errString e = "EOF" →
      HandleErrorLines e
        = ["Error: Client closed connection", "Error: " ++ errString e]) ∧
    (errString e ≠ "EOF" → HandleErrorLines e = ["Error: " ++ errString e]) := by
  refine ⟨?_, ?_, ?_, ?_⟩
  · simp [serverStep, hcs, HandleClientFSM.HandleErrorState, he]
  · simp [serverStep, hcs, HandleClientFSM.HandleErrorState, he]
  · intro heof
    simp [HandleErrorLines, heof]
  · intro hne
    simp [HandleErrorLines, hne]

def cfgAtHandleError : HandleClientFSM :=
  { currentState := .HandleError, numFiles := 3, currentFile := 1, fileName := [],
    fileContent := [], storageDir := "d", stream := [], logs := [],
    err := some .eof, writtenFiles := [] }

theorem c7_witness :
    (serverStep (fun _ => true) cfgAtHandleError).currentState = .Exit ∧
    (serverStep (fun _ => true) cfgAtHandleError).logs
      = cfgAtHandleError.logs ++ HandleErrorLines .eof :=
  ⟨(c7_handle_error (fun _ => true) cfgAtHandleError .eof rfl rfl).1,
   (c7_handle_error (fun _ => true) cfgAtHandleError .eof rfl rfl).2.1⟩
